import Mathlib

/-!
Verification development for the meeting-transcript recorder/transcriber.

The JavaScript sources are embedded shallowly:
* `TranscriptMerger` (src/main/transcription/audio-splitter.js, second module)
  becomes pure functions over an explicit transcript value type;
* `ChunkProcessor` / `WhisperProcessor` / `GroqProcessor`
  (src/main/transcription/whisper-processor.js and chunk-processor.js) become
  pure pipeline functions, with process/network outcomes supplied as oracles;
* `RecordingManager` (recording-manager.js) becomes a state machine with the
  wall clock and external process results passed in explicitly.

JS numbers are modelled as `Int` (all claims use exact small integers), JS
strings as `String`, absent (`undefined`) fields as `Option`.
-/

namespace MeetingTranscript

/-- JS `x || d` for an optional string field: `undefined` and the empty
string are falsy and fall through to the default `d`. -/
def jsOr (x : Option String) (d : String) : String :=
  match x with
  | none => d
  | some s => if s = "" then d else s

/-- JS `hay.includes(needle)` on character lists: `true` iff `needle` occurs
as a contiguous run (the empty needle always occurs). -/
def charListContains (needle : List Char) : List Char → Bool
  | [] => needle.isEmpty
  | c :: tl => needle.isPrefixOf (c :: tl) || charListContains needle tl

/-- JS `hay.includes(needle)` on strings. -/
def textContains (hay needle : String) : Bool :=
  charListContains needle.data hay.data

/-- `join(' ')` from JS `Array.prototype.join`. -/
def joinSpace : List String → String
  | [] => ""
  | [x] => x
  | x :: xs => x ++ " " ++ joinSpace xs

/-- Split a character list into maximal whitespace-free words
(helper for the JS regex `/\s+/`). `cur` holds the current word reversed. -/
def wordsGo (cur : List Char) : List Char → List (List Char)
  | [] => if cur.isEmpty then [] else [cur.reverse]
  | c :: tl =>
    if c.isWhitespace then
      if cur.isEmpty then wordsGo [] tl else cur.reverse :: wordsGo [] tl
    else wordsGo (c :: cur) tl

/-- JS `s.replace(/\s+/g, ' ').trim()`: every maximal whitespace run becomes
a single space and outer whitespace disappears, which is the same as joining
the whitespace-separated words with single spaces. -/
def collapseWs (s : String) : String :=
  joinSpace ((wordsGo [] s.data).map fun w => String.mk w)

/-- JS `t.trim().length > 0`: some character of `t` is not whitespace. -/
def hasVisibleChar (t : String) : Bool :=
  t.data.any fun c => !c.isWhitespace

/-- `.map((x, index) => f index x)` with an explicit running index. -/
def mapWithIndex (f : Nat → α → β) : Nat → List α → List β
  | _, [] => []
  | i, a :: tl => f i a :: mapWithIndex f (i + 1) tl

/-- Replace the last element of a list, if any (JS pattern
`list[list.length - 1].field = v` guarded by `list.length > 0`). -/
def updateLast (f : α → α) : List α → List α
  | [] => []
  | [x] => [f x]
  | x :: y :: tl => x :: updateLast f (y :: tl)

/-- A fully-formed transcript segment as produced by `_normalizeTranscript`
and consumed by the rest of the merger. Field `endTime` embeds the JS field
`end` (a Lean keyword). The optional `words` array is carried through the JS
code unchanged and inspected by no claim, so it is not modelled. -/
structure MSeg where
  id : Int
  start : Int
  endTime : Int
  text : String
deriving DecidableEq, Repr

/-- A raw input segment as found in an arbitrary chunk transcript: every
field may be `undefined`. -/
structure JsSeg where
  id : Option Int
  start : Option Int
  endTime : Option Int
  text : Option String
deriving DecidableEq, Repr

/-- The shapes `TranscriptMerger._normalizeTranscript` distinguishes with
`typeof`/`Array.isArray`: a plain string, an array of segments, an object
with optional `text`/`language`/`segments` fields, or anything else
(`null`, numbers, ...). -/
inductive JsTranscript where
  | str (s : String)
  | arr (segments : List JsSeg)
  | obj (text : Option String) (language : Option String)
      (segments : Option (List JsSeg))
  | other
deriving DecidableEq, Repr

/-- Result of `_normalizeTranscript`. -/
structure NormalizedTranscript where
  text : String
  segments : List MSeg
  language : String
deriving DecidableEq, Repr

/-- Result of `TranscriptMerger.merge`. -/
structure MergedTranscript where
  text : String
  segments : List MSeg
  language : String
  duration : Int
  chunkCount : Nat
  segmentCount : Nat
deriving DecidableEq, Repr

namespace TranscriptMerger

/-- One step of the timestamp-adjusting `segments.map` inside
`_normalizeTranscript` (audio-splitter.js lines 196-216). -/
def adjustSegment (offsetSeconds : Int) (index : Nat) (segment : JsSeg) : MSeg :=
  let baseStart : Int :=
    match segment.start with
    | some s => s + offsetSeconds
    | none => offsetSeconds + (index : Int) * 5
  let baseEnd : Int :=
    match segment.endTime with
    | some e => e + offsetSeconds
    | none => baseStart + 5
  { id := segment.id.getD (index : Int)
    start := max 0 baseStart
    endTime := max baseStart baseEnd
    text := segment.text.getD "" }

/-- `TranscriptMerger._normalizeTranscript(transcript, offsetSeconds)`.
The string case first builds a single segment whose `start` is already
`offsetSeconds`, and that segment then runs through the same adjusting map,
exactly as in the source. -/
def _normalizeTranscript (transcript : JsTranscript) (offsetSeconds : Int) :
    NormalizedTranscript :=
  let raw : List JsSeg × String × String :=
    match transcript with
    | .str s =>
        ([{ id := some 0, start := some offsetSeconds,
            endTime := some (offsetSeconds + 60), text := some s }], s, "unknown")
    | .arr segments =>
        (segments, joinSpace (segments.map fun s => s.text.getD ""), "unknown")
    | .obj text language segments =>
        (segments.getD [], text.getD "", jsOr language "unknown")
    | .other => ([], "", "unknown")
  let adjustedSegments := mapWithIndex (adjustSegment offsetSeconds) 0 raw.1
  { text :=
      if raw.2.1 = "" then joinSpace (adjustedSegments.map fun s => s.text)
      else raw.2.1
    segments := adjustedSegments
    language := raw.2.2 }

/-- The walk of `_deduplicateSegments` (audio-splitter.js lines 236-257)
written recursively: `prev` is the current kept segment, i.e. the last
element of the JS `result` array, which the loop mutates in place; emitting
`prev` corresponds to it no longer being the last element. -/
def dedupeGo (prev : MSeg) : List MSeg → List MSeg
  | [] => [prev]
  | current :: rest =>
    if current.start < prev.endTime then
      if prev.endTime < current.endTime then
        dedupeGo
          { prev with
            endTime := current.endTime
            text :=
              if current.text ≠ "" ∧ textContains prev.text current.text = false
              then prev.text ++ " " ++ current.text
              else prev.text } rest
      else dedupeGo prev rest
    else prev :: dedupeGo current rest

/-- `TranscriptMerger._deduplicateSegments(segments)`. -/
def _deduplicateSegments : List MSeg → List MSeg
  | [] => []
  | s :: rest => dedupeGo s rest

/-- `TranscriptMerger._combineText(segments)`. -/
def _combineText (segments : List MSeg) : String :=
  match segments with
  | [] => ""
  | _ =>
    collapseWs
      (joinSpace ((segments.map fun s => s.text).filter fun t => hasVisibleChar t))

/-- `TranscriptMerger._createEmptyTranscript()`. -/
def _createEmptyTranscript : MergedTranscript :=
  { text := "", segments := [], language := "unknown", duration := 0,
    chunkCount := 0, segmentCount := 0 }

/-- Segment ordering used by the sort in `merge`
(`allSegments.sort((a, b) => a.start - b.start)`). -/
def segLE (a b : MSeg) : Prop := a.start ≤ b.start

instance : DecidableRel segLE := fun a b =>
  inferInstanceAs (Decidable (a.start ≤ b.start))

instance : IsTotal MSeg segLE := ⟨fun a b => Int.le_total a.start b.start⟩

instance : IsTrans MSeg segLE := ⟨fun _ _ _ h1 h2 => le_trans h1 h2⟩

/-- `TranscriptMerger.merge(chunkTranscripts, chunkDuration = 60)`.
The JS engine's `Array.prototype.sort` is a stable sort; a stable sort by a
total preorder is extensionally unique, so `List.insertionSort` (stable)
computes the same list. -/
def merge (chunkTranscripts : List JsTranscript) (chunkDuration : Int) :
    MergedTranscript :=
  match chunkTranscripts with
  | [] => _createEmptyTranscript
  | _ =>
    let normalized :=
      mapWithIndex
        (fun index t => _normalizeTranscript t ((index : Int) * chunkDuration)) 0
        chunkTranscripts
    let allSegments := (normalized.map fun t => t.segments).flatten
    let sorted := List.insertionSort segLE allSegments
    let deduplicated := _deduplicateSegments sorted
    let fullText := _combineText deduplicated
    let language :=
      match normalized.find? (fun t => t.language != "") with
      | some t => t.language
      | none => "unknown"
    let duration :=
      match deduplicated.getLast? with
      | some s => s.endTime
      | none => 0
    { text := fullText
      segments := deduplicated
      language := language
      duration := duration
      chunkCount := chunkTranscripts.length
      segmentCount := deduplicated.length }

end TranscriptMerger

/-- A structured transcript for one chunk, as parsed from local Whisper JSON
output (chunk-processor.js) or mapped from a Groq response by
`GroqProcessor._convertGroqFormat`: text, detected language, and segments
with concrete numeric timestamps. -/
structure ChunkTranscript where
  text : String
  language : String
  segments : List MSeg
deriving DecidableEq, Repr

/-- `ChunkProcessor._adjustTimestamps(transcript, offsetSeconds)`
(chunk-processor.js lines 177-188): shift every segment's start and end. -/
def ChunkProcessor.adjustTimestamps (transcript : ChunkTranscript)
    (offsetSeconds : Int) : ChunkTranscript :=
  { transcript with
    segments := transcript.segments.map fun segment =>
      { segment with
        start := segment.start + offsetSeconds
        endTime := segment.endTime + offsetSeconds } }

/-- `ChunkProcessor.processChunk(chunkPath, chunkIndex)` on a successful
Whisper run whose parsed output is `raw`: the worker itself shifts the
chunk-local timestamps by `chunkIndex * chunkDuration`
(chunk-processor.js lines 62 and 148). -/
def ChunkProcessor.processChunk (chunkDuration : Int) (chunkIndex : Nat)
    (raw : ChunkTranscript) : ChunkTranscript :=
  ChunkProcessor.adjustTimestamps raw ((chunkIndex : Int) * chunkDuration)

/-- `WhisperProcessor._adjustTimestamps(transcript, offsetSeconds)`
(whisper-processor.js lines 183-196); same shift, applied on the Groq path. -/
def WhisperProcessor.adjustTimestamps (transcript : ChunkTranscript)
    (offsetSeconds : Int) : ChunkTranscript :=
  { transcript with
    segments := transcript.segments.map fun segment =>
      { segment with
        start := segment.start + offsetSeconds
        endTime := segment.endTime + offsetSeconds } }

/-- View a worker transcript as the object shape the merger receives. -/
def ChunkTranscript.toJs (t : ChunkTranscript) : JsTranscript :=
  .obj (some t.text) (some t.language)
    (some (t.segments.map fun s =>
      { id := some s.id, start := some s.start, endTime := some s.endTime,
        text := some s.text }))

/-- The sequential local-Whisper loop of `WhisperProcessor.processAudio`
(whisper-processor.js lines 119-144): `rawResults` gives, per split-time
chunk index, the parsed Whisper output (`none` = that chunk's processing
threw).  Each success is pushed onto `transcripts` in index order; failures
contribute nothing. -/
def WhisperProcessor.dispatchLocal (chunkDuration : Int)
    (rawResults : List (Option ChunkTranscript)) : List ChunkTranscript :=
  (mapWithIndex
      (fun i r => r.map (ChunkProcessor.processChunk chunkDuration i)) 0
      rawResults).filterMap id

/-- The Groq path of `WhisperProcessor.processAudio` (whisper-processor.js
lines 96-111): `poolResults` gives, per chunk index, the pool's outcome
(`GroqProcessor.processChunksParallel` stores successes at their index and
ends with `results.filter(r => r !== undefined)`, which compacts the array);
the orchestrator then shifts each surviving transcript by its *position* in
the compacted array times the chunk duration. -/
def WhisperProcessor.dispatchGroq (chunkDuration : Int)
    (poolResults : List (Option ChunkTranscript)) : List ChunkTranscript :=
  let groqTranscripts := poolResults.filterMap id
  mapWithIndex
    (fun i t => WhisperProcessor.adjustTimestamps t ((i : Int) * chunkDuration))
    0 groqTranscripts

/-- End-to-end value of the merged transcript on the local path:
per-chunk Whisper outcomes, then the merge of the collected transcripts
with the same chunk duration (whisper-processor.js line 148). -/
def WhisperProcessor.processAudioLocalMerged (chunkDuration : Int)
    (rawResults : List (Option ChunkTranscript)) : MergedTranscript :=
  TranscriptMerger.merge
    ((WhisperProcessor.dispatchLocal chunkDuration rawResults).map
      ChunkTranscript.toJs)
    chunkDuration

/-- End-to-end value of the merged transcript on the Groq path. -/
def WhisperProcessor.processAudioGroqMerged (chunkDuration : Int)
    (poolResults : List (Option ChunkTranscript)) : MergedTranscript :=
  TranscriptMerger.merge
    ((WhisperProcessor.dispatchGroq chunkDuration poolResults).map
      ChunkTranscript.toJs)
    chunkDuration

namespace GroqProcessor

/-- The key-rotation state of `GroqProcessor`: the configured `apiKeys`
array and the circular cursor `currentKeyIndex` (initially 0; the
constructor default for `maxRetries` is 3). -/
structure KeyState where
  apiKeys : List String
  currentKeyIndex : Nat
deriving DecidableEq, Repr

/-- `GroqProcessor.getNextApiKey()` (whisper-processor.js lines 256-264):
throws when no key is configured, otherwise returns the key under the
cursor and advances the cursor circularly. -/
def getNextApiKey (s : KeyState) : Except String (String × KeyState) :=
  if s.apiKeys.length = 0 then
    .error "No Groq API keys configured"
  else
    .ok (s.apiKeys.getD s.currentKeyIndex "",
      { s with currentKeyIndex := (s.currentKeyIndex + 1) % s.apiKeys.length })

/-- `GroqProcessor._transcribeWithRetry(chunkPath, apiKey, chunkIndex,
retryCount)` (whisper-processor.js lines 282-308).  The network is an
oracle: `fails n` says whether the attempt made at `retryCount = n` throws
(any failure, including a 429 rate limit, is the same catch).  Returns the
keys used for the successive attempts, whether the chunk finally succeeded,
and the rotation state afterwards.  The inner `getNextApiKey` cannot throw
in the retry branch because that branch requires more than one key. -/
def _transcribeWithRetry (fails : Nat → Bool) (maxRetries : Nat)
    (s : KeyState) (apiKey : String) (retryCount : Nat) :
    List String × Bool × KeyState :=
  if fails retryCount = false then
    ([apiKey], true, s)
  else if _h : retryCount < maxRetries ∧ 1 < s.apiKeys.length then
    match getNextApiKey s with
    | .ok (nextKey, s') =>
      let r := _transcribeWithRetry fails maxRetries s' nextKey (retryCount + 1)
      (apiKey :: r.1, r.2.1, r.2.2)
    | .error _ => ([apiKey], false, s)
  else
    ([apiKey], false, s)
termination_by maxRetries - retryCount
decreasing_by omega

/-- `GroqProcessor.processChunk(chunkPath, chunkIndex)` (whisper-processor.js
lines 272-277): fetch a key for the first attempt, then run the retry
loop. -/
def processChunk (fails : Nat → Bool) (maxRetries : Nat) (s : KeyState) :
    Except String (List String × Bool × KeyState) :=
  match getNextApiKey s with
  | .error e => .error e
  | .ok (apiKey, s') => .ok (_transcribeWithRetry fails maxRetries s' apiKey 0)

end GroqProcessor

namespace RecordingManager

/-- One entry of `currentRecording.gaps`.  `stop` embeds the JS field `end`
(a Lean keyword); both `stop` and `duration` are `null` until the gap is
closed by a resume. -/
structure Gap where
  start : Int
  stop : Option Int
  duration : Option Int
deriving DecidableEq, Repr

/-- One entry of `currentRecording.segments`. -/
structure SegmentFile where
  path : String
  startTime : Int
deriving DecidableEq, Repr

/-- The `currentRecording` metadata object (recording-manager.js lines
476-484). -/
structure RecordingInfo where
  startTime : Int
  outputPath : String
  mode : String
  micDevice : Option String
  loopbackDevice : Option String
  gaps : List Gap
  segments : List SegmentFile
deriving DecidableEq, Repr

/-- The mutable fields of `RecordingManager` the claims depend on. -/
structure State where
  currentRecording : Option RecordingInfo
  isPaused : Bool
  pauseStartTime : Option Int
deriving DecidableEq, Repr

/-- The state of a freshly constructed `RecordingManager`. -/
def initialState : State :=
  { currentRecording := none, isPaused := false, pauseStartTime := none }

/-- The options object passed to `startRecording`; absent fields are
`undefined`. -/
structure StartOptions where
  outputPath : Option String
  mode : Option String
  micDevice : Option String
  loopbackDevice : Option String
deriving DecidableEq, Repr

/-- JS truthiness of an optional string (`undefined` and `""` are falsy). -/
def strTruthy : Option String → Bool
  | none => false
  | some s => s != ""

/-- `RecordingManager.startRecording(options)` (recording-manager.js lines
451-499).  `now` is `Date.now()`; `recorderOk` tells whether
`this.recorder.startRecording` resolves (when it throws, the metadata is
discarded again and the error propagates).  Errors are thrown, hence
`Except`. -/
def startRecording (now : Int) (options : StartOptions) (recorderOk : Bool)
    (s : State) : Except String Unit × State :=
  if s.currentRecording.isSome then
    (.error "Recording already in progress", s)
  else
    let mode := jsOr options.mode "both"
    if strTruthy options.outputPath = false then
      (.error "Missing output path", s)
    else if mode = "mic" ∧ strTruthy options.micDevice = false then
      (.error "Microphone device required for mic-only recording", s)
    else if mode = "system" ∧ strTruthy options.loopbackDevice = false then
      (.error "Loopback device required for system-only recording", s)
    else if mode = "both" ∧
        (strTruthy options.micDevice = false ∨
         strTruthy options.loopbackDevice = false) then
      (.error "Both microphone and loopback devices required for mixed recording", s)
    else
      let outputPath := options.outputPath.getD ""
      let s' : State :=
        { currentRecording := some
            { startTime := now, outputPath := outputPath, mode := mode,
              micDevice := options.micDevice,
              loopbackDevice := options.loopbackDevice,
              gaps := [],
              segments := [{ path := outputPath, startTime := now }] }
          isPaused := false
          pauseStartTime := none }
      if recorderOk then (.ok (), s')
      else (.error "spawn failed", { s' with currentRecording := none })

/-- `RecordingManager.pauseRecording()` (recording-manager.js lines
576-609).  `this.recorder.stopRecording()` only ever resolves
(ffmpeg-recorder.js lines 310-363), so the catch branch is dead and the
operation has no failure parameter. -/
def pauseRecording (now : Int) (s : State) : Except String Unit × State :=
  match s.currentRecording with
  | none => (.error "No recording in progress", s)
  | some rec =>
    if s.isPaused then
      (.error "Recording is already paused", s)
    else
      let openGap : Gap := { start := now, stop := none, duration := none }
      (.ok (),
        { currentRecording := some { rec with gaps := rec.gaps ++ [openGap] }
          isPaused := true
          pauseStartTime := some now })

/-- The segment path built by `resumeRecording`; the source splits
`outputPath` into directory, base name and extension with `path.*` and glues
`_segment<i>` in between.  No claim inspects the path's text, so the string
composition is simplified to appending the marker. -/
def segmentPath (outputPath : String) (segmentIndex : Nat) : String :=
  outputPath ++ "_segment" ++ toString segmentIndex

/-- `RecordingManager.resumeRecording()` (recording-manager.js lines
614-676).  `now` is `Date.now()`; `recorderOk` tells whether restarting the
recorder resolves.  The gap is closed and the new segment is appended
*before* the recorder restart is awaited, so those mutations survive even
when the restart throws; only the `isPaused`/`pauseStartTime` reset comes
after the await.  JS computes `now - null` as `now - 0`, hence `getD 0`. -/
def resumeRecording (now : Int) (recorderOk : Bool) (s : State) :
    Except String Unit × State :=
  match s.currentRecording with
  | none => (.error "No recording to resume", s)
  | some rec =>
    if s.isPaused = false then
      (.error "Recording is not paused", s)
    else
      let pauseDuration := now - s.pauseStartTime.getD 0
      let gaps' := updateLast
        (fun g => { g with stop := some now, duration := some pauseDuration })
        rec.gaps
      let segmentIndex := rec.segments.length + 1
      let segments' := rec.segments ++
        [{ path := segmentPath rec.outputPath segmentIndex, startTime := now }]
      let rec' := { rec with gaps := gaps', segments := segments' }
      if recorderOk then
        (.ok (),
          { currentRecording := some rec', isPaused := false,
            pauseStartTime := none })
      else
        (.error "spawn failed",
          { s with currentRecording := some rec' })

/-- `RecordingManager._mergeSegments(segments, outputPath)`
(recording-manager.js lines 762-837).  `spawnOk` is whether FFmpeg could be
spawned, `exitCode` its exit code.  Returns the list of segment-file paths
that were unlinked and the promise outcome.  The `exit` handler deletes
every segment file but the first *before* inspecting the exit code; the
generated `concat_list.txt` manifest is not modelled. -/
def _mergeSegments (segments : List SegmentFile) (spawnOk : Bool)
    (exitCode : Int) : List String × Except String Unit :=
  if spawnOk = false then
    ([], .error "Failed to spawn FFmpeg for merging")
  else
    let deleted := (segments.drop 1).map fun seg => seg.path
    if exitCode = 0 then (deleted, .ok ())
    else (deleted, .error "Failed to merge segments")

/-- The object `stopRecording` resolves with on its main path. -/
structure StopResult where
  success : Bool
  outputPath : String
  duration : Int
  gaps : List Gap
  segments : List SegmentFile
  mergeError : Option String
deriving DecidableEq, Repr

/-- What `stopRecording` returns: the early `{success:false, error}` object
or the full stop result. -/
inductive StopOutcome where
  | noRecording (error : String)
  | stopped (result : StopResult)
deriving DecidableEq, Repr

/-- `RecordingManager.stopRecording()` (recording-manager.js lines
504-571).  `recorderSuccess` is the `success` field of the recorder's stop
result (`result.success !== false`); `spawnOk`/`exitCode` feed
`_mergeSegments`, which is invoked only when more than one segment exists
and whose rejection is caught into the soft `mergeError` field.  The outer
catch is unreachable because the recorder's stop promise never rejects. -/
def stopRecording (now : Int) (recorderSuccess : Bool) (spawnOk : Bool)
    (exitCode : Int) (s : State) : StopOutcome × State :=
  match s.currentRecording with
  | none => (.noRecording "No recording in progress", s)
  | some rec =>
    let mergeError : Option String :=
      if rec.segments.length > 1 then
        match (_mergeSegments rec.segments spawnOk exitCode).2 with
        | .ok _ => none
        | .error e => some e
      else none
    let result : StopResult :=
      { success := recorderSuccess && mergeError.isNone
        outputPath := rec.outputPath
        duration := now - rec.startTime
        gaps := rec.gaps
        segments := rec.segments
        mergeError := mergeError }
    (.stopped result, initialState)

end RecordingManager

namespace WhisperProcessor

/-- `this.currentJob` (whisper-processor.js lines 70-75); the `chunks` array
it also carries is never read by the claims. -/
structure Job where
  audioPath : String
  outputDir : String
  startTime : Int
deriving DecidableEq, Repr

/-- The mutable fields of `WhisperProcessor` together with its relevant
configuration: `chunkDuration`, the Groq toggle (mutated to `false` on a
Groq dispatch failure) and the number of configured Groq keys. -/
structure PState where
  isProcessing : Bool
  currentJob : Option Job
  useGroq : Bool
  groqKeyCount : Nat
  chunkDuration : Int
deriving DecidableEq, Repr

/-- Errors thrown out of `processAudio`: the guard rejection is
distinguished from the I/O and pipeline failures rethrown by the catch. -/
inductive JobError where
  | alreadyInProgress
  | failure (msg : String)
deriving DecidableEq, Repr

/-- The value `processAudio` resolves with. -/
structure ProcessResult where
  transcriptPath : String
  textPath : String
  transcript : MergedTranscript
deriving DecidableEq, Repr

/-- External outcomes of one `processAudio` run: directory creation, the
FFmpeg split (yielding chunk file paths), the Groq parallel dispatch
(`.error` = the whole dispatch threw, triggering the local fallback;
`.ok` = per-index chunk outcomes), the per-index local Whisper outcomes,
and the two transcript file writes. -/
structure Oracle where
  mkdir : Except String Unit
  split : Except String (List String)
  groq : Except String (List (Option ChunkTranscript))
  localRaw : Nat → Option ChunkTranscript
  write1 : Except String Unit
  write2 : Except String Unit
deriving Inhabited

/-- The `try` block of `WhisperProcessor.processAudio` (whisper-processor.js
lines 77-170): everything between taking the job slot and the `finally`.
Per-chunk failures are absorbed; `mkdir`, the split and the two writes
rethrow; a Groq dispatch failure downgrades `useGroq` and falls back to the
sequential local path. -/
def processAudioBody (o : Oracle) (outputDir : String) (s : PState) :
    Except JobError ProcessResult × PState :=
  match o.mkdir with
  | .error e => (.error (.failure e), s)
  | .ok _ =>
    match o.split with
    | .error e => (.error (.failure e), s)
    | .ok chunks =>
      let groqStep : Option (List ChunkTranscript) × PState :=
        if s.useGroq ∧ 0 < s.groqKeyCount then
          match o.groq with
          | .ok poolResults =>
            (some (dispatchGroq s.chunkDuration poolResults), s)
          | .error _ => (none, { s with useGroq := false })
        else (none, s)
      let transcripts : List ChunkTranscript :=
        match groqStep.1 with
        | some ts => ts
        | none =>
          dispatchLocal s.chunkDuration
            ((List.range chunks.length).map o.localRaw)
      let merged :=
        TranscriptMerger.merge (transcripts.map ChunkTranscript.toJs)
          s.chunkDuration
      match o.write1 with
      | .error e => (.error (.failure e), groqStep.2)
      | .ok _ =>
        match o.write2 with
        | .error e => (.error (.failure e), groqStep.2)
        | .ok _ =>
          (.ok { transcriptPath := outputDir ++ "/transcript.json"
                 textPath := outputDir ++ "/transcript.txt"
                 transcript := merged }, groqStep.2)

/-- `WhisperProcessor.processAudio(audioPath, outputDir)` (whisper-processor.js
lines 62-178): the guard throws *before* the `try`, so a rejected call
leaves the state untouched; otherwise the job slot is taken and the
`finally` clears `isProcessing` and `currentJob` on every exit path. -/
def processAudio (o : Oracle) (now : Int) (audioPath outputDir : String)
    (s : PState) : Except JobError ProcessResult × PState :=
  if s.isProcessing then
    (.error .alreadyInProgress, s)
  else
    let job : Job :=
      { audioPath := audioPath, outputDir := outputDir, startTime := now }
    let s1 := { s with isProcessing := true, currentJob := some job }
    let r := processAudioBody o outputDir s1
    (r.1, { r.2 with isProcessing := false, currentJob := none })

end WhisperProcessor

/-! General-purpose lemmas and decidability helpers. -/

instance {ε α : Type} [DecidableEq ε] [DecidableEq α] : DecidableEq (Except ε α)
  | .error e, .error f =>
    if h : e = f then isTrue (by rw [h])
    else isFalse (by intro hh; cases hh; exact h rfl)
  | .error _, .ok _ => isFalse (by intro hh; cases hh)
  | .ok _, .error _ => isFalse (by intro hh; cases hh)
  | .ok a, .ok b =>
    if h : a = b then isTrue (by rw [h])
    else isFalse (by intro hh; cases hh; exact h rfl)

theorem mapWithIndex_mem {α β : Type} {f : Nat → α → β} :
    ∀ {n : Nat} {l : List α} {b : β}, b ∈ mapWithIndex f n l →
      ∃ i a, a ∈ l ∧ b = f i a := by
  intro n l
  induction l generalizing n with
  | nil => intro b hb; simp [mapWithIndex] at hb
  | cons a tl ih =>
    intro b hb
    rw [mapWithIndex] at hb
    rcases List.mem_cons.mp hb with heq | hmem
    · exact ⟨n, a, by simp, heq⟩
    · obtain ⟨i, x, hx, hfx⟩ := ih hmem
      exact ⟨i, x, by simp [hx], hfx⟩

/-- Every explicitly given `start` field of the raw segment is
non-negative. -/
def jsSegStartNonneg (s : JsSeg) : Bool :=
  match s.start with
  | some v => decide (0 ≤ v)
  | none => true

/-- Every explicitly given segment `start` of the transcript shape is
non-negative. -/
def nonnegStarts : JsTranscript → Bool
  | .str _ => true
  | .arr segments => segments.all jsSegStartNonneg
  | .obj _ _ segments => (segments.getD []).all jsSegStartNonneg
  | .other => true

namespace TranscriptMerger

/-! Structural lemmas about the deduplication walk. -/

theorem dedupeGo_head : ∀ (l : List MSeg) (prev : MSeg),
    ∃ h tl, dedupeGo prev l = h :: tl ∧ h.start = prev.start ∧
      prev.endTime ≤ h.endTime := by
  intro l
  induction l with
  | nil => intro prev; exact ⟨prev, [], rfl, rfl, le_refl _⟩
  | cons current rest ih =>
    intro prev
    rw [dedupeGo]
    by_cases h1 : current.start < prev.endTime
    · by_cases h2 : prev.endTime < current.endTime
      · simp only [if_pos h1, if_pos h2]
        obtain ⟨h, tl, heq, hs, he⟩ := ih _
        exact ⟨h, tl, heq, hs, le_trans (le_of_lt h2) he⟩
      · simp only [if_pos h1, if_neg h2]
        exact ih prev
    · simp only [if_neg h1]
      exact ⟨prev, dedupeGo current rest, rfl, rfl, le_refl _⟩

theorem dedupeGo_sorted : ∀ (l : List MSeg) (prev : MSeg),
    List.Chain' (fun x y => x.start ≤ y.start) (prev :: l) →
    List.Chain' (fun x y => x.start ≤ y.start) (dedupeGo prev l) := by
  intro l
  induction l with
  | nil => intro prev _; simp [dedupeGo]
  | cons current rest ih =>
    intro prev hch
    rw [List.chain'_cons] at hch
    obtain ⟨h01, hch2⟩ := hch
    rw [List.chain'_cons'] at hch2
    obtain ⟨hhd, hrest⟩ := hch2
    rw [dedupeGo]
    by_cases h1 : current.start < prev.endTime
    · have hpr : ∀ (e : Int) (t : String),
          List.Chain' (fun x y => x.start ≤ y.start)
            ({ prev with endTime := e, text := t } :: rest) := by
        intro e t
        rw [List.chain'_cons']
        exact ⟨fun y hy => le_trans h01 (hhd y hy), hrest⟩
      by_cases h2 : prev.endTime < current.endTime
      · simp only [if_pos h1, if_pos h2]
        exact ih _ (hpr _ _)
      · simp only [if_pos h1, if_neg h2]
        apply ih prev
        rw [List.chain'_cons']
        exact ⟨fun y hy => le_trans h01 (hhd y hy), hrest⟩
    · simp only [if_neg h1]
      rw [List.chain'_cons']
      constructor
      · intro y hy
        obtain ⟨h, tl, heq, hs, _⟩ := dedupeGo_head rest current
        rw [heq] at hy
        simp only [List.head?] at hy
        cases hy
        rw [hs]
        exact h01
      · exact ih current (List.chain'_cons'.mpr ⟨hhd, hrest⟩)

theorem dedupeGo_no_overlap : ∀ (l : List MSeg) (prev : MSeg),
    List.Chain' (fun x y => x.start ≤ y.start) (prev :: l) →
    List.Chain' (fun x y => x.endTime ≤ y.start) (dedupeGo prev l) := by
  intro l
  induction l with
  | nil => intro prev _; simp [dedupeGo]
  | cons current rest ih =>
    intro prev hch
    rw [List.chain'_cons] at hch
    obtain ⟨h01, hch2⟩ := hch
    have hhd := (List.chain'_cons'.mp hch2).1
    have hrest := (List.chain'_cons'.mp hch2).2
    rw [dedupeGo]
    by_cases h1 : current.start < prev.endTime
    · have hpr : ∀ (e : Int) (t : String),
          List.Chain' (fun x y => x.start ≤ y.start)
            ({ prev with endTime := e, text := t } :: rest) := by
        intro e t
        rw [List.chain'_cons']
        exact ⟨fun y hy => le_trans h01 (hhd y hy), hrest⟩
      by_cases h2 : prev.endTime < current.endTime
      · simp only [if_pos h1, if_pos h2]
        exact ih _ (hpr _ _)
      · simp only [if_pos h1, if_neg h2]
        apply ih prev
        rw [List.chain'_cons']
        exact ⟨fun y hy => le_trans h01 (hhd y hy), hrest⟩
    · simp only [if_neg h1]
      rw [List.chain'_cons']
      constructor
      · intro y hy
        obtain ⟨h, tl, heq, hs, _⟩ := dedupeGo_head rest current
        rw [heq] at hy
        simp only [List.head?] at hy
        cases hy
        rw [hs]
        exact le_of_not_lt h1
      · exact ih current hch2

theorem dedupeGo_end_ge : ∀ (l : List MSeg) (prev : MSeg),
    (∀ s ∈ prev :: l, s.start ≤ s.endTime) →
    ∀ s ∈ dedupeGo prev l, s.start ≤ s.endTime := by
  intro l
  induction l with
  | nil =>
    intro prev hall s hs
    rw [dedupeGo] at hs
    simp only [List.mem_singleton] at hs
    exact hs ▸ hall prev (by simp)
  | cons current rest ih =>
    intro prev hall
    have hprev := hall prev (by simp)
    have hcur := hall current (by simp)
    rw [dedupeGo]
    by_cases h1 : current.start < prev.endTime
    · by_cases h2 : prev.endTime < current.endTime
      · simp only [if_pos h1, if_pos h2]
        apply ih
        intro s hs
        rcases List.mem_cons.mp hs with heq | hmem
        · subst heq
          simp only
          exact le_trans hprev (le_of_lt h2)
        · exact hall s (by simp [hmem])
      · simp only [if_pos h1, if_neg h2]
        apply ih
        intro s hs
        rcases List.mem_cons.mp hs with heq | hmem
        · exact heq ▸ hprev
        · exact hall s (by simp [hmem])
    · simp only [if_neg h1]
      intro s hs
      rcases List.mem_cons.mp hs with heq | hmem
      · exact heq ▸ hprev
      · refine ih current ?_ s hmem
        intro x hx
        rcases List.mem_cons.mp hx with heq2 | hmem2
        · exact heq2 ▸ hcur
        · exact hall x (by simp [hmem2])

theorem dedupe_sorted (l : List MSeg)
    (h : List.Chain' (fun x y => x.start ≤ y.start) l) :
    List.Chain' (fun x y => x.start ≤ y.start) (_deduplicateSegments l) := by
  cases l with
  | nil => simp [_deduplicateSegments]
  | cons s rest => exact dedupeGo_sorted rest s h

theorem dedupe_no_overlap (l : List MSeg)
    (h : List.Chain' (fun x y => x.start ≤ y.start) l) :
    List.Chain' (fun x y => x.endTime ≤ y.start) (_deduplicateSegments l) := by
  cases l with
  | nil => simp [_deduplicateSegments]
  | cons s rest => exact dedupeGo_no_overlap rest s h

theorem dedupe_end_ge (l : List MSeg)
    (h : ∀ s ∈ l, s.start ≤ s.endTime) :
    ∀ s ∈ _deduplicateSegments l, s.start ≤ s.endTime := by
  cases l with
  | nil => simp [_deduplicateSegments]
  | cons s rest => exact dedupeGo_end_ge rest s h

theorem adjustSegment_start_le_end (offset : Int) (i : Nat) (seg : JsSeg)
    (ho : 0 ≤ offset) (hs : jsSegStartNonneg seg = true) :
    (adjustSegment offset i seg).start ≤ (adjustSegment offset i seg).endTime := by
  unfold adjustSegment
  unfold jsSegStartNonneg at hs
  cases hst : seg.start with
  | none =>
    cases hen : seg.endTime <;> simp [hst, hen] <;> omega
  | some v =>
    rw [hst] at hs
    simp only [decide_eq_true_eq] at hs
    cases hen : seg.endTime <;> simp [hst, hen] <;> omega

theorem normalize_start_le_end (t : JsTranscript) (offset : Int)
    (ho : 0 ≤ offset) (ht : nonnegStarts t = true) :
    ∀ s ∈ (_normalizeTranscript t offset).segments, s.start ≤ s.endTime := by
  intro s hs
  unfold _normalizeTranscript at hs
  cases t with
  | str txt =>
    simp only at hs
    obtain ⟨i, a, ha, heq⟩ := mapWithIndex_mem hs
    simp only [List.mem_singleton] at ha
    subst ha heq
    apply adjustSegment_start_le_end _ _ _ ho
    simp [jsSegStartNonneg, ho]
  | arr segments =>
    simp only at hs
    obtain ⟨i, a, ha, heq⟩ := mapWithIndex_mem hs
    subst heq
    apply adjustSegment_start_le_end _ _ _ ho
    exact List.all_eq_true.mp ht a ha
  | obj txt lang segments =>
    simp only at hs
    obtain ⟨i, a, ha, heq⟩ := mapWithIndex_mem hs
    subst heq
    apply adjustSegment_start_le_end _ _ _ ho
    exact List.all_eq_true.mp ht a ha
  | other =>
    simp [mapWithIndex] at hs

theorem merge_invariants (ts : List JsTranscript) (D : Int) :
    List.Chain' (fun x y => x.start ≤ y.start) (merge ts D).segments ∧
    List.Chain' (fun x y => x.endTime ≤ y.start) (merge ts D).segments ∧
    ((0 ≤ D ∧ ∀ t ∈ ts, nonnegStarts t = true) →
      ∀ s ∈ (merge ts D).segments, s.start ≤ s.endTime) := by
  cases hts : ts with
  | nil => simp [merge, _createEmptyTranscript]
  | cons t0 tl =>
    have hseg : (merge (t0 :: tl) D).segments =
        _deduplicateSegments
          (List.insertionSort segLE
            (((mapWithIndex
                (fun index t =>
                  _normalizeTranscript t ((index : Int) * D)) 0
                (t0 :: tl)).map fun t => t.segments).flatten)) := rfl
    have hsorted :
        List.Chain' (fun x y => x.start ≤ y.start)
          (List.insertionSort segLE
            (((mapWithIndex
                (fun index t =>
                  _normalizeTranscript t ((index : Int) * D)) 0
                (t0 :: tl)).map fun t => t.segments).flatten)) := by
      have hp := List.sorted_insertionSort segLE
        (((mapWithIndex
            (fun index t => _normalizeTranscript t ((index : Int) * D)) 0
            (t0 :: tl)).map fun t => t.segments).flatten)
      exact List.Pairwise.chain' hp
    refine ⟨?_, ?_, ?_⟩
    · rw [hseg]; exact dedupe_sorted _ hsorted
    · rw [hseg]; exact dedupe_no_overlap _ hsorted
    · rintro ⟨hD, hnn⟩
      rw [hseg]
      apply dedupe_end_ge
      intro s hs
      have hmem : s ∈
          (((mapWithIndex
              (fun index t => _normalizeTranscript t ((index : Int) * D)) 0
              (t0 :: tl)).map fun t => t.segments).flatten) :=
        (List.perm_insertionSort segLE _).mem_iff.mp hs
      rw [List.mem_flatten] at hmem
      obtain ⟨lseg, hl, hsl⟩ := hmem
      rw [List.mem_map] at hl
      obtain ⟨nt, hnt, hntseg⟩ := hl
      obtain ⟨i, a, ha, hfa⟩ := mapWithIndex_mem hnt
      subst hfa
      rw [← hntseg] at hsl
      refine normalize_start_le_end a ((i : Int) * D) ?_ ?_ s hsl
      · exact mul_nonneg (Int.natCast_nonneg i) hD
      · exact hnn a ha

theorem normalize_language_ne_empty (t : JsTranscript) (offset : Int) :
    (_normalizeTranscript t offset).language ≠ "" := by
  cases t with
  | str s => simp [_normalizeTranscript]
  | arr segs => simp [_normalizeTranscript]
  | obj txt lang segs =>
    simp only [_normalizeTranscript, jsOr]
    cases lang with
    | none => simp
    | some s =>
      by_cases hs : s = "" <;> simp [hs]
  | other => simp [_normalizeTranscript]

end TranscriptMerger

namespace RecordingManager

/-- The closed gap a pause at `pr.1` followed by a resume at `pr.2`
produces. -/
def gapOf (pr : Int × Int) : Gap :=
  { start := pr.1, stop := some pr.2, duration := some (pr.2 - pr.1) }

/-- One pause/resume round: pause at `pr.1`, resume at `pr.2`, with the
capture process restarting cleanly. -/
def pauseResumeStep (s : State) (pr : Int × Int) : State :=
  (resumeRecording pr.2 true (pauseRecording pr.1 s).2).2

theorem updateLast_concat {α : Type} (f : α → α) :
    ∀ (l : List α) (x : α), updateLast f (l ++ [x]) = l ++ [f x] := by
  intro l
  induction l with
  | nil => intro x; rfl
  | cons a l ih =>
    intro x
    cases l with
    | nil => rfl
    | cons b l2 =>
      show a :: updateLast f ((b :: l2) ++ [x]) = a :: ((b :: l2) ++ [f x])
      rw [ih]

theorem pauseResumeStep_eq (rec : RecordingInfo) (pr : Int × Int) :
    pauseResumeStep (State.mk (some rec) false none) pr =
      State.mk
        (some { rec with
          gaps := rec.gaps ++ [gapOf pr]
          segments := rec.segments ++
            [{ path := segmentPath rec.outputPath (rec.segments.length + 1),
               startTime := pr.2 }] })
        false none := by
  unfold pauseResumeStep pauseRecording
  simp only
  unfold resumeRecording
  simp [updateLast_concat, gapOf]

theorem foldl_pauseResume :
    ∀ (times : List (Int × Int)) (rec : RecordingInfo),
      ∃ rec2,
        times.foldl pauseResumeStep (State.mk (some rec) false none) =
          State.mk (some rec2) false none ∧
        rec2.gaps = rec.gaps ++ times.map gapOf ∧
        rec2.segments.length = rec.segments.length + times.length := by
  intro times
  induction times with
  | nil => intro rec; exact ⟨rec, rfl, by simp, by simp⟩
  | cons pr rest ih =>
    intro rec
    rw [List.foldl_cons, pauseResumeStep_eq]
    obtain ⟨rec2, heq, hg, hs⟩ := ih _
    refine ⟨rec2, heq, ?_, ?_⟩
    · rw [hg]
      simp
    · rw [hs]
      simp only [List.length_append, List.length_cons, List.length_map]
      simp [List.length_map]
      omega

theorem start_ok_state (t0 : Int) (options : StartOptions)
    (h : (startRecording t0 options true initialState).1 = .ok ()) :
    (startRecording t0 options true initialState).2 =
      State.mk
        (some
          { startTime := t0
            outputPath := options.outputPath.getD ""
            mode := jsOr options.mode "both"
            micDevice := options.micDevice
            loopbackDevice := options.loopbackDevice
            gaps := []
            segments := [{ path := options.outputPath.getD "",
                           startTime := t0 }] })
        false none := by
  by_cases c1 : strTruthy options.outputPath = false
  · exfalso
    simp [startRecording, initialState, c1] at h
  · by_cases c2 : jsOr options.mode "both" = "mic" ∧
        strTruthy options.micDevice = false
    · exfalso
      simp [startRecording, initialState, c1, c2] at h
    · by_cases c3 : jsOr options.mode "both" = "system" ∧
          strTruthy options.loopbackDevice = false
      · exfalso
        simp [startRecording, initialState, c1, c2, c3] at h
      · by_cases c4 : jsOr options.mode "both" = "both" ∧
            (strTruthy options.micDevice = false ∨
             strTruthy options.loopbackDevice = false)
        · exfalso
          simp [startRecording, initialState, c1, c2, c3, c4] at h
        · simp [startRecording, initialState, c1, c2, c3, c4]

end RecordingManager

namespace GroqProcessor

/-- Invariants of the retry loop, by induction on the remaining retry
budget `fuel = maxRetries - retryCount`: the attempt count is bounded by
`fuel + 1`; the first attempt uses the key handed in; attempt `i + 1` uses
the key the cursor pointed at after `i` further rotations; every attempt
before the last one failed; a failed attempt within budget with more than
one key is followed by another attempt; and with at most one key there is
never more than one attempt. -/
theorem retry_spec (fails : Nat → Bool) (maxRetries : Nat) :
    ∀ (fuel retryCount : Nat) (s : KeyState) (key : String),
      maxRetries - retryCount = fuel →
      s.currentKeyIndex < s.apiKeys.length →
      (_transcribeWithRetry fails maxRetries s key retryCount).1.length ≤ fuel + 1 ∧
      (_transcribeWithRetry fails maxRetries s key retryCount).1.getD 0 "" = key ∧
      (_transcribeWithRetry fails maxRetries s key retryCount).1 ≠ [] ∧
      (∀ i, i + 1 < (_transcribeWithRetry fails maxRetries s key retryCount).1.length →
        (_transcribeWithRetry fails maxRetries s key retryCount).1.getD (i + 1) "" =
          s.apiKeys.getD ((s.currentKeyIndex + i) % s.apiKeys.length) "") ∧
      (∀ j, j + 1 < (_transcribeWithRetry fails maxRetries s key retryCount).1.length →
        fails (retryCount + j) = true) ∧
      (∀ j, fails (retryCount + j) = true → retryCount + j < maxRetries →
        1 < s.apiKeys.length →
        j < (_transcribeWithRetry fails maxRetries s key retryCount).1.length →
        j + 1 < (_transcribeWithRetry fails maxRetries s key retryCount).1.length) ∧
      (s.apiKeys.length ≤ 1 →
        (_transcribeWithRetry fails maxRetries s key retryCount).1.length = 1) := by
  intro fuel
  induction fuel with
  | zero =>
    intro retryCount s key hfuel hc
    rw [_transcribeWithRetry]
    by_cases hf : fails retryCount = false
    · rw [if_pos hf]
      refine ⟨by simp, rfl, by simp, by simp, by simp, ?_, by simp⟩
      intro j hfj _ _ hjlen
      simp only [List.length_singleton] at hjlen
      have hj0 : j = 0 := by omega
      subst hj0
      rw [Nat.add_zero] at hfj
      rw [hfj] at hf
      simp at hf
    · rw [if_neg hf]
      have hno : ¬(retryCount < maxRetries ∧ 1 < s.apiKeys.length) := by
        rintro ⟨hlt, -⟩
        omega
      rw [dif_neg hno]
      refine ⟨by simp, rfl, by simp, by simp, by simp, ?_, by simp⟩
      intro j hfj hjm hk hjlen
      simp only [List.length_singleton] at hjlen
      have hj0 : j = 0 := by omega
      subst hj0
      rw [Nat.add_zero] at hfj hjm
      exact absurd ⟨hjm, hk⟩ hno
  | succ fuel ih =>
    intro retryCount s key hfuel hc
    rw [_transcribeWithRetry]
    by_cases hf : fails retryCount = false
    · rw [if_pos hf]
      refine ⟨by simp, rfl, by simp, by simp, by simp, ?_, by simp⟩
      intro j hfj _ _ hjlen
      simp only [List.length_singleton] at hjlen
      have hj0 : j = 0 := by omega
      subst hj0
      rw [Nat.add_zero] at hfj
      rw [hfj] at hf
      simp at hf
    · rw [if_neg hf]
      by_cases hcond : retryCount < maxRetries ∧ 1 < s.apiKeys.length
      · rw [dif_pos hcond]
        have hlen0 : ¬(s.apiKeys.length = 0) := by omega
        simp only [getNextApiKey, if_neg hlen0]
        have hftrue : fails retryCount = true := by
          revert hf
          cases fails retryCount <;> simp
        obtain ⟨ih1, ih2, ih3, ih4, ih5, ih6, ih7⟩ :=
          ih (retryCount + 1)
            { s with currentKeyIndex :=
                (s.currentKeyIndex + 1) % s.apiKeys.length }
            (s.apiKeys.getD s.currentKeyIndex "")
            (by omega) (by exact Nat.mod_lt _ (by omega))
        refine ⟨?_, rfl, by simp, ?_, ?_, ?_, ?_⟩
        · simp only [List.length_cons]
          omega
        · intro i hi
          simp only [List.length_cons] at hi
          rw [List.getD_cons_succ]
          cases i with
          | zero =>
            rw [ih2, Nat.add_zero, Nat.mod_eq_of_lt hc]
          | succ i2 =>
            have hi2 : i2 + 1 < (_transcribeWithRetry fails maxRetries
                { s with currentKeyIndex :=
                    (s.currentKeyIndex + 1) % s.apiKeys.length }
                (s.apiKeys.getD s.currentKeyIndex "")
                (retryCount + 1)).1.length := by
              omega
            rw [ih4 i2 hi2]
            congr 1
            simp only
            rw [Nat.mod_add_mod]
            congr 1
            omega
        · intro j hj
          simp only [List.length_cons] at hj
          cases j with
          | zero => simpa using hftrue
          | succ j2 =>
            have harith : retryCount + (j2 + 1) = retryCount + 1 + j2 := by
              omega
            rw [harith]
            exact ih5 j2 (by omega)
        · intro j hfj hjm hk hjlen
          simp only [List.length_cons] at hjlen ⊢
          cases j with
          | zero =>
            have hpos : 0 < (_transcribeWithRetry fails maxRetries
                { s with currentKeyIndex :=
                    (s.currentKeyIndex + 1) % s.apiKeys.length }
                (s.apiKeys.getD s.currentKeyIndex "")
                (retryCount + 1)).1.length :=
              List.length_pos.mpr ih3
            omega
          | succ j2 =>
            have hfj2 : fails (retryCount + 1 + j2) = true := by
              have harith : retryCount + 1 + j2 = retryCount + (j2 + 1) := by
                omega
              rw [harith]
              exact hfj
            have := ih6 j2 hfj2 (by omega) hcond.2 (by omega)
            omega
        · intro hk1
          exact absurd hcond.2 (by omega)
      · rw [dif_neg hcond]
        refine ⟨by simp, rfl, by simp, by simp, by simp, ?_, by simp⟩
        intro j hfj hjm hk hjlen
        simp only [List.length_singleton] at hjlen
        have hj0 : j = 0 := by omega
        subst hj0
        rw [Nat.add_zero] at hfj hjm
        exact absurd ⟨hjm, hk⟩ hcond

end GroqProcessor

namespace WhisperProcessor

theorem processAudioBody_not_guard (o : Oracle) (outputDir : String)
    (s : PState) :
    (processAudioBody o outputDir s).1 ≠ .error .alreadyInProgress := by
  unfold processAudioBody
  cases hm : o.mkdir with
  | error e => simp
  | ok u =>
    cases hs : o.split with
    | error e => simp
    | ok chunks =>
      cases h1 : o.write1 with
      | error e => simp
      | ok u1 =>
        cases h2 : o.write2 with
        | error e => simp
        | ok u2 => simp

end WhisperProcessor

/-! Claims. -/

/-- Claim C1: a chunk at split-time index `i` that succeeds is supposed to
contribute its chunk-local segment `{s, e}` to the merge shifted to
`{s + i*D, e + i*D}`, regardless of other chunks failing.  The code does
not: on the Groq path the pool's results are compacted before shifting (so
the offset uses the surviving position, not the split index) and the merger
shifts a second time by position.  Evaluated here: with two 60s chunks where
chunk 0 fails, chunk 1's local segment `{0, 2}` arrives at `{0, 2}` instead
of `{60, 62}`; with both chunks succeeding, chunk 1's segment arrives at
`{120, 122}` (shifted by the orchestrator and again by the merger) instead
of `{60, 62}`. -/
theorem claim_C1_groq_offset_eval :
    (WhisperProcessor.processAudioGroqMerged 60
        [none, some ⟨"World", "en", [⟨0, 0, 2, "World"⟩]⟩]).segments
      = [⟨0, 0, 2, "World"⟩] ∧
    (WhisperProcessor.processAudioGroqMerged 60
        [some ⟨"Hello", "en", [⟨0, 0, 2, "Hello"⟩]⟩,
         some ⟨"World", "en", [⟨0, 0, 2, "World"⟩]⟩]).segments
      = [⟨0, 0, 2, "Hello"⟩, ⟨0, 120, 122, "World"⟩] := by
  decide

/-- Claim C2 (counterexample): the claim says the overlapping segment's text
is appended whenever it is not already a substring of the kept text.  With
kept `{0, 10, "abc"}` and next `{2, 5, "xyz"}` the next segment overlaps and
"xyz" is not a substring of "abc", yet the deduplication drops it without
appending (the code appends only when the next segment also extends the
kept end). -/
theorem claim_C2_counterexample :
    TranscriptMerger._deduplicateSegments
        [⟨0, 0, 10, "abc"⟩, ⟨1, 2, 5, "xyz"⟩]
      = [⟨0, 0, 10, "abc"⟩] ∧
    textContains "abc" "xyz" = false ∧
    ("abc" : String) ≠ "abc xyz" := by
  decide

/-- Claim C2 (amended): walking the sorted list, a next segment starting
strictly before the kept segment's end merges into it — the kept end
becomes `max` of the two ends, and the next text is appended exactly when
the next segment's end exceeds the kept end, its text is non-empty and not
already a substring of the kept text; otherwise the next segment is kept as
a new entry unchanged. -/
theorem claim_C2_amended (a b : MSeg) (rest : List MSeg) :
    TranscriptMerger._deduplicateSegments (a :: b :: rest) =
      if b.start < a.endTime then
        TranscriptMerger._deduplicateSegments
          ({ a with
              endTime := max a.endTime b.endTime
              text :=
                if a.endTime < b.endTime ∧ b.text ≠ "" ∧
                    textContains a.text b.text = false
                then a.text ++ " " ++ b.text
                else a.text } :: rest)
      else a :: TranscriptMerger._deduplicateSegments (b :: rest) := by
  show TranscriptMerger.dedupeGo a (b :: rest) = _
  rw [TranscriptMerger.dedupeGo]
  by_cases h1 : b.start < a.endTime
  · simp only [if_pos h1]
    by_cases h2 : a.endTime < b.endTime
    · have hmax : max a.endTime b.endTime = b.endTime := by omega
      have htext :
          (if b.text ≠ "" ∧ textContains a.text b.text = false
           then a.text ++ " " ++ b.text else a.text) =
          (if a.endTime < b.endTime ∧ b.text ≠ "" ∧
              textContains a.text b.text = false
           then a.text ++ " " ++ b.text else a.text) := by
        simp [h2]
      simp only [if_pos h2, hmax, htext, TranscriptMerger._deduplicateSegments]
    · have hmax : max a.endTime b.endTime = a.endTime := by omega
      have htext :
          (if a.endTime < b.endTime ∧ b.text ≠ "" ∧
              textContains a.text b.text = false
           then a.text ++ " " ++ b.text else a.text) = a.text := by
        simp [h2]
      simp only [if_neg h2, hmax, htext, TranscriptMerger._deduplicateSegments]
  · simp only [if_neg h1, TranscriptMerger._deduplicateSegments]

/-- Claim C3: the spec scenario — 3 chunks of 60s, chunk 0 yields
`{text:"Hello", segments:[{0,2}]}`, chunk 1 yields
`{text:"World", segments:[{0,2}]}`, chunk 2 fails — is supposed to merge to
segments `[{0,2},{60,62}]` with chunk count 3.  The code (local path)
instead produces segments `[{0,2},{120,122}]` (the worker shifts chunk 1's
segment to `{60,62}` and the merger shifts it again by its position in the
list of surviving transcripts) and chunk count 2 (the merger counts its
inputs, which exclude the failed chunk). -/
theorem claim_C3_scenario_eval :
    WhisperProcessor.processAudioLocalMerged 60
        [some ⟨"Hello", "en", [⟨0, 0, 2, "Hello"⟩]⟩,
         some ⟨"World", "en", [⟨0, 0, 2, "World"⟩]⟩, none]
      = ⟨"Hello World",
         [⟨0, 0, 2, "Hello"⟩, ⟨0, 120, 122, "World"⟩],
         "en", 122, 2, 2⟩ := by
  decide

/-- Claim C4: starting a session and then pausing/resuming `N` times
(alternating, with every capture restart succeeding) leaves exactly `N + 1`
segments and exactly `N` gaps, and the `k`-th gap is
`{start := pause_k, end := resume_k, duration := resume_k − pause_k}`. -/
theorem claim_C4_pause_resume_bookkeeping (t0 : Int)
    (options : RecordingManager.StartOptions) (times : List (Int × Int))
    (h : (RecordingManager.startRecording t0 options true
        RecordingManager.initialState).1 = .ok ()) :
    ∃ rec,
      (times.foldl RecordingManager.pauseResumeStep
          (RecordingManager.startRecording t0 options true
            RecordingManager.initialState).2).currentRecording = some rec ∧
      rec.segments.length = times.length + 1 ∧
      rec.gaps.length = times.length ∧
      rec.gaps = times.map RecordingManager.gapOf := by
  rw [RecordingManager.start_ok_state t0 options h]
  obtain ⟨rec2, heq, hg, hs⟩ := RecordingManager.foldl_pauseResume times _
  refine ⟨rec2, by rw [heq], ?_, ?_, ?_⟩
  · rw [hs]; simp [Nat.add_comm]
  · rw [hg]; simp
  · rw [hg]; simp

/-- Claim C4 witness: one pause at t=10 and resume at t=15 on a session
started at t=0. -/
theorem claim_C4_witness :
    ∃ rec,
      ([((10 : Int), (15 : Int))].foldl RecordingManager.pauseResumeStep
          (RecordingManager.startRecording 0
            ⟨some "o.wav", some "both", some "m", some "l"⟩ true
            RecordingManager.initialState).2).currentRecording = some rec ∧
      rec.segments.length = 2 ∧
      rec.gaps.length = 1 ∧
      rec.gaps = [⟨10, some 15, some 5⟩] :=
  claim_C4_pause_resume_bookkeeping 0
    ⟨some "o.wav", some "both", some "m", some "l"⟩ [(10, 15)] (by decide)

/-- Claim C5 (counterexample): the claim says a stop whose capture process
ends cleanly but whose segment concatenation fails still returns a
*successful* result.  On a session with two segments, a clean recorder stop
and an FFmpeg concat exit code 1, `stopRecording` resolves with
`success := false` (its success flag requires the merge to have
succeeded) — while still carrying duration, gaps, segments and the
`mergeError` flag. -/
theorem claim_C5_counterexample :
    (RecordingManager.stopRecording 100 true true 1
        (RecordingManager.State.mk
          (some
            { startTime := 0
              outputPath := "o.wav"
              mode := "both"
              micDevice := some "m"
              loopbackDevice := some "l"
              gaps := []
              segments := [⟨"o.wav", 0⟩, ⟨"o.wav_segment2", 30⟩] })
          false none)).1
      = .stopped
          { success := false
            outputPath := "o.wav"
            duration := 100
            gaps := []
            segments := [⟨"o.wav", 0⟩, ⟨"o.wav_segment2", 30⟩]
            mergeError := some "Failed to merge segments" } := by
  decide

/-- Claim C5 (amended): when an active session with more than one segment is
stopped, the capture process stops cleanly and concatenation fails, the
stop still returns normally (it does not throw and is not the
\"no recording\" early error), carrying the duration, the gap list, the
segment list and the soft merge-error flag — but the result's `success`
field is `false`, not `true`. -/
theorem claim_C5_amended (now exitCode : Int) (s : RecordingManager.State)
    (rec : RecordingManager.RecordingInfo)
    (hrec : s.currentRecording = some rec)
    (hseg : rec.segments.length > 1)
    (hexit : exitCode ≠ 0) :
    RecordingManager.stopRecording now true true exitCode s =
      (.stopped
        { success := false
          outputPath := rec.outputPath
          duration := now - rec.startTime
          gaps := rec.gaps
          segments := rec.segments
          mergeError := some "Failed to merge segments" },
       RecordingManager.initialState) := by
  unfold RecordingManager.stopRecording
  rw [hrec]
  simp [RecordingManager._mergeSegments, hseg, hexit]

/-- Claim C5 witness: the amended statement at a concrete two-segment
session. -/
theorem claim_C5_witness :
    RecordingManager.stopRecording 100 true true 1
        (RecordingManager.State.mk
          (some
            { startTime := 0
              outputPath := "o.wav"
              mode := "both"
              micDevice := some "m"
              loopbackDevice := some "l"
              gaps := []
              segments := [⟨"o.wav", 0⟩, ⟨"o.wav_segment2", 30⟩] })
          false none) =
      (.stopped
        { success := false
          outputPath := "o.wav"
          duration := 100
          gaps := []
          segments := [⟨"o.wav", 0⟩, ⟨"o.wav_segment2", 30⟩]
          mergeError := some "Failed to merge segments" },
       RecordingManager.initialState) :=
  claim_C5_amended 100 1 _ _ rfl (by decide) (by decide)

/-- Claim C6: the concatenator is supposed to delete the non-first segment
files only on success and none of them on failure.  The code's `exit`
handler deletes them before inspecting the exit code: with two segments and
exit code 0 it deletes the second segment and succeeds, but with exit code
1 it still deletes the second segment while reporting the failure. -/
theorem claim_C6_deletes_on_failure_eval :
    RecordingManager._mergeSegments
        [⟨"a.wav", 0⟩, ⟨"a.wav_segment2", 10⟩] true 0
      = (["a.wav_segment2"], .ok ()) ∧
    RecordingManager._mergeSegments
        [⟨"a.wav", 0⟩, ⟨"a.wav_segment2", 10⟩] true 1
      = (["a.wav_segment2"], .error "Failed to merge segments") := by
  decide

/-- Claim C7: for a chunk dispatched to the Groq pool, at most `maxRetries`
retry attempts follow the first attempt (so at most `maxRetries + 1`
attempts in all); attempt `i` uses the key at `(cursor + i) mod #keys`,
i.e. each attempt takes the next key from the circular rotation; every
attempt before the last one failed; an attempt failure within the retry
budget is followed by another attempt exactly when more than one key is
configured; and with exactly one key the first failure is terminal. -/
theorem claim_C7_retry_and_rotation (fails : Nat → Bool) (maxRetries : Nat)
    (s : GroqProcessor.KeyState)
    (hne : 0 < s.apiKeys.length)
    (hc : s.currentKeyIndex < s.apiKeys.length) :
    ∃ ks succeeded s2,
      GroqProcessor.processChunk fails maxRetries s = .ok (ks, succeeded, s2) ∧
      ks.length ≤ maxRetries + 1 ∧
      (∀ i, i < ks.length →
        ks.getD i "" =
          s.apiKeys.getD ((s.currentKeyIndex + i) % s.apiKeys.length) "") ∧
      (∀ j, j + 1 < ks.length → fails j = true) ∧
      (∀ j, fails j = true → j < maxRetries → 1 < s.apiKeys.length →
        j < ks.length → j + 1 < ks.length) ∧
      (s.apiKeys.length = 1 → fails 0 = true → ks.length = 1) := by
  have hlen0 : ¬(s.apiKeys.length = 0) := by omega
  obtain ⟨h1, h2, h3, h4, h5, h6, h7⟩ :=
    GroqProcessor.retry_spec fails maxRetries maxRetries 0
      { s with currentKeyIndex := (s.currentKeyIndex + 1) % s.apiKeys.length }
      (s.apiKeys.getD s.currentKeyIndex "")
      (by omega) (Nat.mod_lt _ (by omega))
  set r := GroqProcessor._transcribeWithRetry fails maxRetries
    { s with currentKeyIndex := (s.currentKeyIndex + 1) % s.apiKeys.length }
    (s.apiKeys.getD s.currentKeyIndex "") 0 with hr
  refine ⟨r.1, r.2.1, r.2.2, ?_, h1, ?_, ?_, ?_, ?_⟩
  · unfold GroqProcessor.processChunk
    simp only [GroqProcessor.getNextApiKey, if_neg hlen0]
  · intro i hi
    cases i with
    | zero =>
      rw [h2, Nat.add_zero, Nat.mod_eq_of_lt hc]
    | succ i2 =>
      rw [h4 i2 hi]
      congr 1
      simp only
      rw [Nat.mod_add_mod]
      congr 1
      omega
  · intro j hj
    have := h5 j hj
    simpa using this
  · intro j hfj hjm hk hjl
    have hfj0 : fails (0 + j) = true := by simpa using hfj
    have hjm0 : 0 + j < maxRetries := by omega
    exact h6 j hfj0 hjm0 hk hjl
  · intro hk1 _
    exact h7 hk1.le

/-- Claim C7 witness: two keys, `maxRetries = 3`, cursor at 0, only the
first attempt failing. -/
theorem claim_C7_witness :
    ∃ ks succeeded s2,
      GroqProcessor.processChunk (fun j => j == 0) 3
          (GroqProcessor.KeyState.mk ["k1", "k2"] 0) =
        .ok (ks, succeeded, s2) ∧
      ks.length ≤ 3 + 1 ∧
      (∀ i, i < ks.length →
        ks.getD i "" = (["k1", "k2"] : List String).getD ((0 + i) % 2) "") ∧
      (∀ j, j + 1 < ks.length → (fun j => j == 0) j = true) ∧
      (∀ j, (fun j => j == 0) j = true → j < 3 → 1 < 2 →
        j < ks.length → j + 1 < ks.length) ∧
      (2 = 1 → (fun j => j == 0) 0 = true → ks.length = 1) :=
  claim_C7_retry_and_rotation (fun j => j == 0) 3
    (GroqProcessor.KeyState.mk ["k1", "k2"] 0) (by decide) (by decide)

/-- Claim C8 (counterexample): the claim asserts `end ≥ start` for every
merged segment on any accepted input.  A segment with explicit negative
timestamps `{start := -10, end := -9}` is normalized to
`{start := max 0 (-10) = 0, end := max (-10) (-9) = -9}` — the start is
clamped to zero but the end is not — so the merged segment violates
`end ≥ start`. -/
theorem claim_C8_counterexample :
    (TranscriptMerger.merge
        [.obj (some "x") none (some [⟨none, some (-10), some (-9), some "x"⟩])]
        60).segments = [⟨0, 0, -9, "x"⟩] ∧
    ((TranscriptMerger.merge
        [.obj (some "x") none (some [⟨none, some (-10), some (-9), some "x"⟩])]
        60).segments.all fun s => s.start ≤ s.endTime) = false := by
  decide

/-- Claim C8 (amended): for every merge input the merged segment list has
non-decreasing start times and consecutive segments never overlap (each
start is at least the previous end); and provided the chunk duration is
non-negative and every explicitly given input segment start is
non-negative, every merged segment also satisfies `end ≥ start`. -/
theorem claim_C8_amended (ts : List JsTranscript) (D : Int)
    (hD : 0 ≤ D) (hnn : ∀ t ∈ ts, nonnegStarts t = true) :
    List.Chain' (fun x y => x.start ≤ y.start)
      (TranscriptMerger.merge ts D).segments ∧
    List.Chain' (fun x y => x.endTime ≤ y.start)
      (TranscriptMerger.merge ts D).segments ∧
    ∀ s ∈ (TranscriptMerger.merge ts D).segments, s.start ≤ s.endTime := by
  obtain ⟨ha, hb, hc⟩ := TranscriptMerger.merge_invariants ts D
  exact ⟨ha, hb, hc ⟨hD, hnn⟩⟩

/-- Claim C8 witness: two overlapping chunk transcripts with non-negative
explicit starts. -/
theorem claim_C8_witness :
    List.Chain' (fun x y => x.start ≤ y.start)
      (TranscriptMerger.merge
        [.obj (some "a") (some "en") (some [⟨some 0, some 0, some 70, some "a"⟩]),
         .obj (some "b") (some "en") (some [⟨some 0, some 1, some 4, some "b"⟩])]
        60).segments ∧
    List.Chain' (fun x y => x.endTime ≤ y.start)
      (TranscriptMerger.merge
        [.obj (some "a") (some "en") (some [⟨some 0, some 0, some 70, some "a"⟩]),
         .obj (some "b") (some "en") (some [⟨some 0, some 1, some 4, some "b"⟩])]
        60).segments ∧
    ∀ s ∈ (TranscriptMerger.merge
        [.obj (some "a") (some "en") (some [⟨some 0, some 0, some 70, some "a"⟩]),
         .obj (some "b") (some "en") (some [⟨some 0, some 1, some 4, some "b"⟩])]
        60).segments, s.start ≤ s.endTime :=
  claim_C8_amended _ 60 (by decide) (by decide)

/-- Claim C9 (counterexample): the claim says the merged language is the
first *non-empty* language among the inputs.  With inputs whose languages
are `""` and `"en"`, the code returns `"unknown"`: normalization maps the
empty language to the (truthy) string `"unknown"`, so the merger's search
for a truthy language always stops at the first transcript. -/
theorem claim_C9_counterexample :
    (TranscriptMerger.merge
        [.obj (some "a") (some "") (some []),
         .obj (some "b") (some "en") (some [])] 60).language = "unknown" ∧
    ("unknown" : String) ≠ "en" := by
  decide

/-- Claim C9 (amended): the merged language is determined by the *first*
input transcript alone — its language if it is an object with a non-empty
language field, `"unknown"` otherwise; languages of later transcripts are
never consulted.  (For an empty input list it is `"unknown"`.) -/
theorem claim_C9_amended (ts : List JsTranscript) (D : Int) :
    (TranscriptMerger.merge ts D).language =
      match ts with
      | [] => "unknown"
      | t :: _ => (TranscriptMerger._normalizeTranscript t 0).language := by
  cases ts with
  | nil => rfl
  | cons t0 tl =>
    have hne := TranscriptMerger.normalize_language_ne_empty t0
      (((0 : Nat) : Int) * D)
    have hpos :
        ((TranscriptMerger._normalizeTranscript t0
            (((0 : Nat) : Int) * D)).language != "") = true :=
      bne_iff_ne.mpr hne
    have hfind :
        (mapWithIndex
            (fun index t =>
              TranscriptMerger._normalizeTranscript t ((index : Int) * D)) 0
            (t0 :: tl)).find? (fun t => t.language != "") =
          some (TranscriptMerger._normalizeTranscript t0
            (((0 : Nat) : Int) * D)) := by
      rw [mapWithIndex]
      exact List.find?_cons_of_pos _ hpos
    have hlang : (TranscriptMerger.merge (t0 :: tl) D).language =
        match (mapWithIndex
            (fun index t =>
              TranscriptMerger._normalizeTranscript t ((index : Int) * D)) 0
            (t0 :: tl)).find? (fun t => t.language != "") with
          | some t => t.language
          | none => "unknown" := rfl
    rw [hlang, hfind]
    have harg : ((0 : Nat) : Int) * D = 0 := by simp
    rw [harg]

/-- Claim C10: any invocation of `processAudio` that takes the job slot
releases it on termination — whatever the oracle makes of the directory
creation, the split, the dispatch and the transcript writes, the final state
has `isProcessing = false` and `currentJob = none`, and a subsequent
invocation is never rejected with the \"already in progress\" guard.  (The
hypothesis `isProcessing = false` at entry says the call is the one holding
the slot; a call arriving while another genuinely runs is rejected by
design.) -/
theorem claim_C10_job_slot_released (o : WhisperProcessor.Oracle) (now : Int)
    (audioPath outputDir : String) (s : WhisperProcessor.PState)
    (h : s.isProcessing = false) :
    (WhisperProcessor.processAudio o now audioPath outputDir s).2.isProcessing
        = false ∧
    (WhisperProcessor.processAudio o now audioPath outputDir s).2.currentJob
        = none ∧
    ∀ (o2 : WhisperProcessor.Oracle) (now2 : Int) (a2 od2 : String),
      (WhisperProcessor.processAudio o2 now2 a2 od2
          (WhisperProcessor.processAudio o now audioPath outputDir s).2).1 ≠
        .error .alreadyInProgress := by
  refine ⟨?_, ?_, ?_⟩
  · unfold WhisperProcessor.processAudio
    simp [h]
  · unfold WhisperProcessor.processAudio
    simp [h]
  · intro o2 now2 a2 od2
    set s2 := (WhisperProcessor.processAudio o now audioPath outputDir s).2
      with hdef
    have hs2 : s2.isProcessing = false := by
      rw [hdef]
      unfold WhisperProcessor.processAudio
      simp [h]
    unfold WhisperProcessor.processAudio
    rw [if_neg (by simp [hs2])]
    exact WhisperProcessor.processAudioBody_not_guard o2 od2 _

/-- Claim C10 witness: a failing split on an idle processor. -/
theorem claim_C10_witness :
    (WhisperProcessor.processAudio
        ⟨.ok (), .error "split failed", .error "offline", fun _ => none,
          .ok (), .ok ()⟩
        0 "a.wav" "out"
        (WhisperProcessor.PState.mk false none false 0 60)).2.isProcessing
        = false ∧
    (WhisperProcessor.processAudio
        ⟨.ok (), .error "split failed", .error "offline", fun _ => none,
          .ok (), .ok ()⟩
        0 "a.wav" "out"
        (WhisperProcessor.PState.mk false none false 0 60)).2.currentJob
        = none ∧
    ∀ (o2 : WhisperProcessor.Oracle) (now2 : Int) (a2 od2 : String),
      (WhisperProcessor.processAudio o2 now2 a2 od2
          (WhisperProcessor.processAudio
            ⟨.ok (), .error "split failed", .error "offline", fun _ => none,
              .ok (), .ok ()⟩
            0 "a.wav" "out"
            (WhisperProcessor.PState.mk false none false 0 60)).2).1 ≠
        .error .alreadyInProgress :=
  claim_C10_job_slot_released _ 0 "a.wav" "out" _ rfl

end MeetingTranscript
